import Mathlib

/-!
Verification development for the directory-inode core (TreeInode.cpp).

The C++ source is shallowly embedded: the value types Entry and Dir are
structures, the std::map of children is an association list with the map
operations used by the source (find, bracket insertion, emplace, erase),
and every outwardly visible side effect (overlay syscalls, overlay
record saves and removals, journal appends) is recorded in an explicit
event or journal list.  The ancestor chain of a TreeInode is passed
explicitly, so the recursive materialization walk becomes structural
recursion on that list.  The execution model is sequential: between a
read-lock preflight and the write-lock commit no other task runs, which
is the linearized behaviour of the lock protocol in the source.
-/

namespace Eden

/-- POSIX errno values surfaced by the source.  EIOerr stands for the
EIO consistency-violation code of the source. -/
inductive Errno
  | ENOENT
  | EEXIST
  | EISDIR
  | ENOTDIR
  | ENOTEMPTY
  | EXDEV
  | EIOerr
deriving DecidableEq, Repr

/-- Result of a fallible operation, mirroring folly exceptions: either a
value or an errno. -/
inductive Res (α : Type)
  | ok (val : α)
  | error (e : Errno)
deriving DecidableEq, Repr

/-- One child record of a directory: mode bits, optional store hash,
materialized flag (TreeInode.h Entry). -/
structure Entry where
  mode : Nat
  hash : Option Nat
  materialized : Bool
deriving DecidableEq, Repr

/-- In-memory image of one directory: entry table, materialization flag,
optional backing tree hash (TreeInode.h Dir). -/
structure Dir where
  entries : List (String × Entry)
  materialized : Bool
  treeHash : Option Nat
deriving DecidableEq, Repr

/-- Lookup in the entry map: std::map::find. -/
def findEntry : List (String × Entry) → String → Option Entry
  | [], _ => none
  | (k, e) :: rest, n => if k = n then some e else findEntry rest n

/-- Insertion or replacement in the entry map: assignment through
std::map::operator[] (also covers emplace on an absent key). -/
def insertEntry : List (String × Entry) → String → Entry → List (String × Entry)
  | [], n, e => [(n, e)]
  | (k, e0) :: rest, n, e =>
      if k = n then (n, e) :: rest else (k, e0) :: insertEntry rest n e

/-- Removal from the entry map: std::map::erase. -/
def eraseEntry : List (String × Entry) → String → List (String × Entry)
  | [], _ => []
  | (k, e0) :: rest, n => if k = n then rest else (k, e0) :: eraseEntry rest n

/-- The std::map key set is duplicate-free; association lists carry this
as an explicit invariant. -/
def KeysNodup (es : List (String × Entry)) : Prop :=
  (es.map Prod.fst).Nodup

instance (es : List (String × Entry)) : Decidable (KeysNodup es) := by
  unfold KeysNodup; infer_instance

theorem findEntry_insertEntry_self (es : List (String × Entry)) (n : String) (e : Entry) :
    findEntry (insertEntry es n e) n = some e := by
  induction es with
  | nil => simp [insertEntry, findEntry]
  | cons p rest ih =>
    obtain ⟨k, e0⟩ := p
    by_cases h : k = n
    · simp [insertEntry, h, findEntry]
    · simp [insertEntry, h, findEntry, ih]

theorem findEntry_insertEntry_ne (es : List (String × Entry)) (n m : String) (e : Entry)
    (h : m ≠ n) : findEntry (insertEntry es n e) m = findEntry es m := by
  induction es with
  | nil => simp [insertEntry, findEntry, h, Ne.symm h]
  | cons p rest ih =>
    obtain ⟨k, e0⟩ := p
    by_cases hk : k = n
    · subst hk
      simp [insertEntry, findEntry, Ne.symm h, h]
    · by_cases hm : k = m
      · simp [insertEntry, hk, findEntry, hm, h, Ne.symm h]
      · simp [insertEntry, hk, findEntry, hm, ih]

theorem findEntry_eraseEntry_ne (es : List (String × Entry)) (n m : String)
    (h : m ≠ n) : findEntry (eraseEntry es n) m = findEntry es m := by
  induction es with
  | nil => simp [eraseEntry, findEntry]
  | cons p rest ih =>
    obtain ⟨k, e0⟩ := p
    by_cases hk : k = n
    · subst hk
      simp [eraseEntry, findEntry, Ne.symm h]
    · by_cases hm : k = m
      · simp [eraseEntry, hk, findEntry, hm, h, Ne.symm h]
      · simp [eraseEntry, hk, findEntry, hm, ih]

theorem findEntry_eq_none_of_not_mem (es : List (String × Entry)) (n : String)
    (h : n ∉ es.map Prod.fst) : findEntry es n = none := by
  induction es with
  | nil => simp [findEntry]
  | cons p rest ih =>
    obtain ⟨k, e0⟩ := p
    simp only [List.map_cons, List.mem_cons] at h
    push_neg at h
    simp [findEntry, Ne.symm h.1, ih h.2]

theorem keys_insertEntry (es : List (String × Entry)) (n : String) (e : Entry) :
    (insertEntry es n e).map Prod.fst =
      if n ∈ es.map Prod.fst then es.map Prod.fst else es.map Prod.fst ++ [n] := by
  induction es with
  | nil => simp [insertEntry]
  | cons p rest ih =>
    obtain ⟨k, e0⟩ := p
    by_cases hk : k = n
    · simp [insertEntry, hk]
    · simp only [insertEntry, if_neg hk, List.map_cons, ih, List.mem_cons]
      by_cases hm : n ∈ rest.map Prod.fst
      · simp [hm, Ne.symm hk]
      · simp [hm, Ne.symm hk]

theorem keysNodup_insertEntry (es : List (String × Entry)) (n : String) (e : Entry)
    (h : KeysNodup es) : KeysNodup (insertEntry es n e) := by
  unfold KeysNodup at *
  rw [keys_insertEntry]
  by_cases hm : n ∈ es.map Prod.fst
  · simpa [hm] using h
  · simp only [hm, if_false]
    rw [List.nodup_append]
    refine ⟨h, List.nodup_singleton n, ?_⟩
    intro x hx hx2
    simp only [List.mem_singleton] at hx2
    subst hx2
    exact hm hx

theorem findEntry_eraseEntry_self (es : List (String × Entry)) (n : String)
    (h : KeysNodup es) : findEntry (eraseEntry es n) n = none := by
  induction es with
  | nil => simp [eraseEntry, findEntry]
  | cons p rest ih =>
    obtain ⟨k, e0⟩ := p
    unfold KeysNodup at h
    simp only [List.map_cons, List.nodup_cons] at h
    by_cases hk : k = n
    · subst hk
      simp only [eraseEntry, if_pos rfl]
      exact findEntry_eq_none_of_not_mem rest _ h.1
    · simp [eraseEntry, hk, findEntry, ih h.2]

/-- S_ISDIR of sys/stat.h: the file-type bits of the mode equal S_IFDIR. -/
def S_ISDIR (m : Nat) : Bool :=
  (m &&& 0o170000) == 0o040000

/-- The dtype extracted from a mode by mode_to_dtype (eden dtype util). -/
def mode_to_dtype (m : Nat) : Nat :=
  (m &&& 0o170000) >>> 12

/-- dtype_t::Dir, the directory dtype value DT_DIR. -/
def dtypeDir : Nat := 4

/-- A relative path, as a list of components. -/
abbrev RelPath := List String

/-- A JournalDelta names the affected paths (one for create, mkdir,
unlink, rmdir; two for rename). -/
abbrev JournalDelta := List RelPath

/-- Outwardly visible side effect of an operation: a syscall in the
overlay content area, an overlay record save, or an overlay record
removal.  contentOpen is the open(O_RDWR mask O_CREAT) of create. -/
inductive Event
  | contentMkdir (path : RelPath)
  | contentOpen (path : RelPath)
  | contentUnlink (path : RelPath)
  | contentRmdir (path : RelPath)
  | contentRename (src dst : RelPath)
  | saveDir (path : RelPath) (d : Dir)
  | removeDir (path : RelPath)
deriving DecidableEq, Repr

/-- One TreeInode of the ancestor chain: the component name under which
it appears in its parent directory (entry_ points at that slot), the
relative path the name manager resolves for it, and its Dir. -/
structure ChainNode where
  name : String
  path : RelPath
  dir : Dir
deriving DecidableEq, Repr

/-- TreeInode::materializeDirAndParents.  The inode table walk to the
parent is made explicit: anc lists the proper ancestors of self, nearest
parent first, ending at the mount root (anc is empty exactly for the
root).  Returns the updated self, the updated ancestors and the ordered
list of overlay effects.  The early return on an already-materialized
Dir is the read-lock fast path of the source; the write-lock re-check of
the source collapses into it in this sequential model. -/
def materializeDirAndParents (self : ChainNode) (anc : List ChainNode) :
    ChainNode × List ChainNode × List Event :=
  if self.dir.materialized then (self, anc, [])
  else
    let dir1 : Dir := { self.dir with materialized := true }
    let self1 : ChainNode := { self with dir := dir1 }
    let selfEv : List Event := [.contentMkdir self.path, .saveDir self.path dir1]
    match anc with
    | [] => (self1, [], selfEv)
    | parent :: rest =>
      let r := materializeDirAndParents parent rest
      match findEntry r.1.dir.entries self.name with
      | some e =>
        if e.materialized then (self1, r.1 :: r.2.1, r.2.2 ++ selfEv)
        else
          let pdir : Dir :=
            { r.1.dir with
              entries := insertEntry r.1.dir.entries self.name { e with materialized := true } }
          (self1, { r.1 with dir := pdir } :: r.2.1,
            r.2.2 ++ selfEv ++ [.saveDir r.1.path pdir])
      | none => (self1, r.1 :: r.2.1, r.2.2 ++ selfEv)

theorem mat_of_materialized (self : ChainNode) (anc : List ChainNode)
    (h : self.dir.materialized = true) :
    materializeDirAndParents self anc = (self, anc, []) := by
  unfold materializeDirAndParents
  simp [h]

theorem mat_fst (self : ChainNode) (anc : List ChainNode) :
    (materializeDirAndParents self anc).1 =
      if self.dir.materialized then self
      else { self with dir := { self.dir with materialized := true } } := by
  unfold materializeDirAndParents
  by_cases h : self.dir.materialized
  · simp [h]
  · simp only [h, Bool.false_eq_true, if_false]
    split
    · rfl
    · split
      · split <;> rfl
      · rfl

theorem mat_entries (self : ChainNode) (anc : List ChainNode) :
    ((materializeDirAndParents self anc).1).dir.entries = self.dir.entries := by
  rw [mat_fst]
  by_cases h : self.dir.materialized <;> simp [h]

theorem mat_path (self : ChainNode) (anc : List ChainNode) :
    ((materializeDirAndParents self anc).1).path = self.path := by
  rw [mat_fst]
  by_cases h : self.dir.materialized <;> simp [h]

theorem mat_materialized (self : ChainNode) (anc : List ChainNode) :
    ((materializeDirAndParents self anc).1).dir.materialized = true := by
  rw [mat_fst]
  by_cases h : self.dir.materialized <;> simp [h]

/-- Flag monotonicity between an old and a new chain node. -/
def MonoNode (a b : ChainNode) : Prop :=
  a.dir.materialized = true → b.dir.materialized = true

theorem monoNode_refl (a : ChainNode) : MonoNode a a := fun h => h

theorem mat_anc_mono :
    ∀ (anc : List ChainNode) (self : ChainNode),
      List.Forall₂ MonoNode anc ((materializeDirAndParents self anc).2.1) := by
  intro anc
  induction anc with
  | nil =>
    intro self
    unfold materializeDirAndParents
    by_cases h : self.dir.materialized <;> simp [h]
  | cons parent rest ih =>
    intro self
    by_cases h : self.dir.materialized
    · rw [mat_of_materialized self _ h]
      exact List.forall₂_same.2 fun x _ => monoNode_refl x
    · unfold materializeDirAndParents
      simp only [h, Bool.false_eq_true, if_false]
      have hp : ((materializeDirAndParents parent rest).1).dir.materialized = true :=
        mat_materialized parent rest
      have htail := ih parent
      split
      · split
        · exact List.Forall₂.cons (fun _ => hp) htail
        · exact List.Forall₂.cons (fun _ => hp) htail
      · exact List.Forall₂.cons (fun _ => hp) htail

theorem mat_events_shape :
    ∀ (anc : List ChainNode) (self : ChainNode) (ev : Event),
      ev ∈ (materializeDirAndParents self anc).2.2 →
      (∃ p, ev = .contentMkdir p) ∨ (∃ p d, ev = .saveDir p d) := by
  intro anc
  induction anc with
  | nil =>
    intro self ev hev
    unfold materializeDirAndParents at hev
    by_cases h : self.dir.materialized
    · simp [h] at hev
    · simp only [h, Bool.false_eq_true, if_false, List.mem_cons, List.mem_singleton,
        List.not_mem_nil, or_false] at hev
      rcases hev with h1 | h1
      · exact Or.inl ⟨_, h1⟩
      · exact Or.inr ⟨_, _, h1⟩
  | cons parent rest ih =>
    intro self ev hev
    by_cases h : self.dir.materialized
    · rw [mat_of_materialized self _ h] at hev
      simp at hev
    · unfold materializeDirAndParents at hev
      simp only [h, Bool.false_eq_true, if_false] at hev
      have hself : ∀ hv : Event,
          hv ∈ [Event.contentMkdir self.path,
                Event.saveDir self.path { self.dir with materialized := true }] →
          (∃ p, hv = .contentMkdir p) ∨ (∃ p d, hv = .saveDir p d) := by
        intro hv hmem
        simp only [List.mem_cons, List.mem_singleton, List.not_mem_nil, or_false] at hmem
        rcases hmem with h1 | h1
        · exact Or.inl ⟨_, h1⟩
        · exact Or.inr ⟨_, _, h1⟩
      split at hev
      · split at hev
        · simp only [List.mem_append] at hev
          rcases hev with h1 | h1
          · exact ih parent ev h1
          · exact hself ev h1
        · simp only [List.mem_append, List.mem_singleton] at hev
          rcases hev with (h1 | h1) | h1
          · exact ih parent ev h1
          · exact hself ev h1
          · exact Or.inr ⟨_, _, h1⟩
      · simp only [List.mem_append] at hev
        rcases hev with h1 | h1
        · exact ih parent ev h1
        · exact hself ev h1

/-- Outcome of one directory operation: its result, the updated self
chain node, the updated ancestors, the ordered side effects and the
journal deltas it appended. -/
structure OpResult where
  result : Res Unit
  self : ChainNode
  anc : List ChainNode
  events : List Event
  journal : List JournalDelta
deriving DecidableEq, Repr

/-- TreeInode::create.  The overlay open and fstat are modelled as
succeeding; stMode is the st_mode the fstat reports for the opened
file.  There is no precondition on the name: the entry slot is
assigned through operator[], replacing any existing entry. -/
def createOp (self : ChainNode) (anc : List ChainNode) (name : String) (stMode : Nat) :
    OpResult :=
  let targetPath := self.path ++ [name]
  let m := materializeDirAndParents self anc
  let entry : Entry := { mode := stMode, hash := none, materialized := true }
  let dir2 : Dir := { m.1.dir with entries := insertEntry m.1.dir.entries name entry }
  { result := .ok ()
    self := { m.1 with dir := dir2 }
    anc := m.2.1
    events := m.2.2 ++ [.contentOpen targetPath, .saveDir m.1.path dir2]
    journal := [[targetPath]] }

/-- TreeInode::mkdir.  Note the source calls materializeDirAndParents
before the write-lock block that performs the EEXIST check.  The OS
mkdir and lstat are modelled as succeeding; stMode is the st_mode the
lstat reports. -/
def mkdirOp (self : ChainNode) (anc : List ChainNode) (name : String) (stMode : Nat) :
    OpResult :=
  let targetPath := self.path ++ [name]
  let m := materializeDirAndParents self anc
  match findEntry m.1.dir.entries name with
  | some _ => { result := .error .EEXIST, self := m.1, anc := m.2.1, events := m.2.2, journal := [] }
  | none =>
    let entry : Entry := { mode := stMode, hash := none, materialized := true }
    let dir2 : Dir := { m.1.dir with entries := insertEntry m.1.dir.entries name entry }
    let emptyDir : Dir := { entries := [], materialized := true, treeHash := none }
    { result := .ok ()
      self := { m.1 with dir := dir2 }
      anc := m.2.1
      events := m.2.2 ++
        [.contentMkdir targetPath, .saveDir m.1.path dir2, .saveDir targetPath emptyDir]
      journal := [[targetPath]] }

/-- Read-lock precondition block of TreeInode::unlink. -/
def unlinkPreflight (d : Dir) (name : String) : Res Unit :=
  match findEntry d.entries name with
  | none => .error .ENOENT
  | some e => if S_ISDIR e.mode then .error .EISDIR else .ok ()

/-- TreeInode::unlink: preflight under read lock, materialize, then the
write-lock commit re-checks the preconditions, unlinks the overlay file
when the entry is materialized, erases the entry and saves the Dir. -/
def unlinkOp (self : ChainNode) (anc : List ChainNode) (name : String) : OpResult :=
  let targetPath := self.path ++ [name]
  match unlinkPreflight self.dir name with
  | .error err => { result := .error err, self := self, anc := anc, events := [], journal := [] }
  | .ok _ =>
    let m := materializeDirAndParents self anc
    match findEntry m.1.dir.entries name with
    | none =>
      { result := .error .ENOENT, self := m.1, anc := m.2.1, events := m.2.2, journal := [] }
    | some e =>
      if S_ISDIR e.mode then
        { result := .error .EISDIR, self := m.1, anc := m.2.1, events := m.2.2, journal := [] }
      else
        let unlinkEv : List Event := if e.materialized then [.contentUnlink targetPath] else []
        let dir2 : Dir := { m.1.dir with entries := eraseEntry m.1.dir.entries name }
        { result := .ok ()
          self := { m.1 with dir := dir2 }
          anc := m.2.1
          events := m.2.2 ++ unlinkEv ++ [.saveDir m.1.path dir2]
          journal := [[targetPath]] }

/-- Read-lock precondition block of TreeInode::rmdir.  target? is the
Dir of the child the lookup resolves for the name, none when the lookup
does not yield a TreeInode (the EIO consistency branches). -/
def rmdirPreflight (d : Dir) (name : String) (target? : Option Dir) : Res Unit :=
  match findEntry d.entries name with
  | none => .error .ENOENT
  | some e =>
    if !(S_ISDIR e.mode) then .error .EISDIR
    else
      match target? with
      | none => .error .EIOerr
      | some t => if !t.entries.isEmpty then .error .ENOTEMPTY else .ok ()

/-- Write-lock commit block of TreeInode::rmdir: repeats every
preflight check (including the emptiness check against a read lock on
the target Dir) before removing the overlay directory, erasing the
entry, saving the Dir and removing the overlay record of the target. -/
def rmdirCommit (s1 : ChainNode) (name : String) (target? : Option Dir) :
    Res Unit × ChainNode × List Event :=
  let targetPath := s1.path ++ [name]
  match findEntry s1.dir.entries name with
  | none => (.error .ENOENT, s1, [])
  | some e =>
    if !(S_ISDIR e.mode) then (.error .EISDIR, s1, [])
    else
      match target? with
      | none => (.error .EIOerr, s1, [])
      | some t =>
        if !t.entries.isEmpty then (.error .ENOTEMPTY, s1, [])
        else
          let rmEv : List Event := if e.materialized then [.contentRmdir targetPath] else []
          let dir2 : Dir := { s1.dir with entries := eraseEntry s1.dir.entries name }
          (.ok (), { s1 with dir := dir2 },
            rmEv ++ [.saveDir s1.path dir2, .removeDir targetPath])

/-- TreeInode::rmdir: preflight, materialize, commit, journal. -/
def rmdirOp (self : ChainNode) (anc : List ChainNode) (name : String)
    (target? : Option Dir) : OpResult :=
  let targetPath := self.path ++ [name]
  match rmdirPreflight self.dir name target? with
  | .error err => { result := .error err, self := self, anc := anc, events := [], journal := [] }
  | .ok _ =>
    let m := materializeDirAndParents self anc
    let c := rmdirCommit m.1 name target?
    match c.1 with
    | .error err =>
      { result := .error err, self := c.2.1, anc := m.2.1, events := m.2.2 ++ c.2.2, journal := [] }
    | .ok _ =>
      { result := .ok (), self := c.2.1, anc := m.2.1, events := m.2.2 ++ c.2.2,
        journal := [[targetPath]] }

/-- The destination checks of TreeInode::renameHelper: renaming a
directory over an existing name requires the latter to be an empty
directory.  destEnt? is the entry found under the destination name;
destChild? is the Dir of the inode the destination name resolves to. -/
def renameDestCheck (srcEnt : Entry) (destEnt? : Option Entry) (destChild? : Option Dir) :
    Res Unit :=
  if mode_to_dtype srcEnt.mode == dtypeDir then
    match destEnt? with
    | none => .ok ()
    | some dstEnt =>
      if !(mode_to_dtype dstEnt.mode == dtypeDir) then .error .ENOTDIR
      else
        match destChild? with
        | none => .error .EIOerr
        | some c => if c.entries.isEmpty then .ok () else .error .ENOTEMPTY
  else .ok ()

/-- TreeInode::renameHelper specialised to the aliased case where
sourceContents and destContents are the same map.  The value written
through operator[] before the move models the default-constructed slot
the source creates there; the source entry is then re-resolved after
that insertion, moved into the destination slot, and the source slot is
erased. -/
def renameHelperSame (d : Dir) (srcN dstN : String) (srcFull dstFull : RelPath)
    (destChild? : Option Dir) : Res (Dir × List Event) :=
  match findEntry d.entries srcN with
  | none => .error .ENOENT
  | some srcEnt =>
    match renameDestCheck srcEnt (findEntry d.entries dstN) destChild? with
    | .error e => .error e
    | .ok _ =>
      let renameEv : List Event :=
        if srcEnt.materialized then [.contentRename srcFull dstFull] else []
      let es1 : List (String × Entry) :=
        match findEntry d.entries dstN with
        | some _ => d.entries
        | none => insertEntry d.entries dstN { mode := 0, hash := none, materialized := false }
      match findEntry es1 srcN with
      | none => .error .EIOerr
      | some moved =>
        let d3 : Dir := { d with entries := eraseEntry (insertEntry es1 dstN moved) srcN }
        .ok (d3, renameEv ++ [.saveDir srcFull.dropLast d3])

/-- TreeInode::renameHelper in the two-map case: the destination slot
is filled from the re-resolved source entry and the source entry is
erased from the source map; the source Dir is saved first, then the
destination Dir. -/
def renameHelperCross (src dst : Dir) (srcN dstN : String) (srcFull dstFull : RelPath)
    (destChild? : Option Dir) : Res (Dir × Dir × List Event) :=
  match findEntry src.entries srcN with
  | none => .error .ENOENT
  | some srcEnt =>
    match renameDestCheck srcEnt (findEntry dst.entries dstN) destChild? with
    | .error e => .error e
    | .ok _ =>
      let renameEv : List Event :=
        if srcEnt.materialized then [.contentRename srcFull dstFull] else []
      let es1 : List (String × Entry) :=
        match findEntry dst.entries dstN with
        | some _ => dst.entries
        | none => insertEntry dst.entries dstN { mode := 0, hash := none, materialized := false }
      match findEntry src.entries srcN with
      | none => .error .EIOerr
      | some moved =>
        let dst3 : Dir := { dst with entries := insertEntry es1 dstN moved }
        let src3 : Dir := { src with entries := eraseEntry src.entries srcN }
        .ok (src3, dst3,
          renameEv ++ [.saveDir srcFull.dropLast src3, .saveDir dstFull.dropLast dst3])

/-- TreeInode::rename when the destination parent is this same
TreeInode: one write lock, renameHelper on the single map. -/
def renameOpSame (self : ChainNode) (anc : List ChainNode) (name newName : String)
    (destChild? : Option Dir) : OpResult :=
  let srcFull := self.path ++ [name]
  let dstFull := self.path ++ [newName]
  match findEntry self.dir.entries name with
  | none => { result := .error .ENOENT, self := self, anc := anc, events := [], journal := [] }
  | some _ =>
    let m := materializeDirAndParents self anc
    match renameHelperSame m.1.dir name newName srcFull dstFull destChild? with
    | .error e => { result := .error e, self := m.1, anc := m.2.1, events := m.2.2, journal := [] }
    | .ok r =>
      { result := .ok ()
        self := { m.1 with dir := r.1 }
        anc := m.2.1
        events := m.2.2 ++ r.2
        journal := [[srcFull, dstFull]] }

/-- Outcome of a cross-directory rename: both chains are reported. -/
structure RenameCrossResult where
  result : Res Unit
  self : ChainNode
  anc : List ChainNode
  dest : ChainNode
  danc : List ChainNode
  events : List Event
  journal : List JournalDelta
deriving DecidableEq, Repr

/-- TreeInode::rename when the destination parent is a distinct
TreeInode: preflight on the source, materialize both parents, then
renameHelper under the two write locks. -/
def renameOpCross (self : ChainNode) (anc : List ChainNode)
    (dest : ChainNode) (danc : List ChainNode) (name newName : String)
    (destChild? : Option Dir) : RenameCrossResult :=
  let srcFull := self.path ++ [name]
  let dstFull := dest.path ++ [newName]
  match findEntry self.dir.entries name with
  | none =>
    { result := .error .ENOENT, self := self, anc := anc, dest := dest, danc := danc,
      events := [], journal := [] }
  | some _ =>
    let m := materializeDirAndParents self anc
    let md := materializeDirAndParents dest danc
    match renameHelperCross m.1.dir md.1.dir name newName srcFull dstFull destChild? with
    | .error e =>
      { result := .error e, self := m.1, anc := m.2.1, dest := md.1, danc := md.2.1,
        events := m.2.2 ++ md.2.2, journal := [] }
    | .ok r =>
      { result := .ok ()
        self := { m.1 with dir := r.1 }
        anc := m.2.1
        dest := { md.1 with dir := r.2.1 }
        danc := md.2.1
        events := m.2.2 ++ md.2.2 ++ r.2.2
        journal := [[srcFull, dstFull]] }

/-- Kind of inode TreeInode::getChildByNameLocked constructs. -/
inductive LookupResult
  | treeFromStore (h : Nat)
  | treeFromOverlay
  | fileInode
deriving DecidableEq, Repr

/-- TreeInode::getChildByNameLocked: fail ENOENT when the name is
absent; otherwise allocate the inode number through the name manager
(the second component records the allocations performed, in order) and
construct the child from the store tree, the overlay, or as a file
inode. -/
def getChildByNameLocked (d : Dir) (name : String) : Res LookupResult × List String :=
  match findEntry d.entries name with
  | none => (.error .ENOENT, [])
  | some e =>
    let allocs := [name]
    if S_ISDIR e.mode then
      match e.materialized, e.hash with
      | false, some h => (.ok (.treeFromStore h), allocs)
      | _, _ => (.ok .treeFromOverlay, allocs)
    else (.ok .fileInode, allocs)

/-- A store-backed regular file entry (mode 0100644, blob hash 1). -/
def entFileU : Entry := { mode := 0o100644, hash := some 1, materialized := false }

/-- A materialized regular file entry. -/
def entFileM : Entry := { mode := 0o100644, hash := none, materialized := true }

/-- A store-backed subdirectory entry (mode 040755, tree hash 2). -/
def entSubU : Entry := { mode := 0o040755, hash := some 2, materialized := false }

/-- An unmaterialized mount root over a store tree with a file a and a
subdirectory sub. -/
def rootU : ChainNode :=
  { name := "", path := [],
    dir := { entries := [("a", entFileU), ("sub", entSubU)], materialized := false,
             treeHash := some 7 } }

/-- The same mount root once materialized. -/
def rootM : ChainNode :=
  { name := "", path := [],
    dir := { entries := [("a", entFileM), ("sub", entSubU)], materialized := true,
             treeHash := none } }

/-- The Dir of the store-backed subdirectory sub, holding one child c. -/
def subDirU : Dir :=
  { entries := [("c", entFileU)], materialized := false, treeHash := some 2 }

/-- C8: getChildByNameLocked fails ENOENT exactly when the name is
absent from the entries of the directory, a failing lookup performs no
name-manager allocation, and a successful lookup allocates exactly the
node for this name, after the existence check. -/
theorem claim8_lookup_enoent_and_late_alloc (d : Dir) (name : String) :
    ((getChildByNameLocked d name).1 = Res.error .ENOENT ↔ findEntry d.entries name = none)
    ∧ (findEntry d.entries name = none → (getChildByNameLocked d name).2 = [])
    ∧ (∀ e : Entry, findEntry d.entries name = some e →
        (getChildByNameLocked d name).2 = [name]) := by
  cases hfe : findEntry d.entries name with
  | none => simp [getChildByNameLocked, hfe]
  | some e =>
    by_cases hd : S_ISDIR e.mode
    · cases hm : e.materialized <;> cases hh : e.hash <;>
        simp [getChildByNameLocked, hfe, hd, hm, hh]
    · simp [getChildByNameLocked, hfe, hd]

/-- C8 witness: a missing name allocates nothing, a present name
allocates exactly its own node. -/
theorem claim8_witness :
    (getChildByNameLocked rootM.dir "zz").2 = []
    ∧ (getChildByNameLocked rootM.dir "a").2 = ["a"] :=
  ⟨(claim8_lookup_enoent_and_late_alloc rootM.dir "zz").2.1 (by decide),
   (claim8_lookup_enoent_and_late_alloc rootM.dir "a").2.2 entFileM (by decide)⟩

/-- C9: create never fails EEXIST; with a name already present (of any
type) it silently replaces the existing entry by a fresh materialized
Entry whose mode is the fstat result of the newly opened overlay
file. -/
theorem claim9_create_replaces_existing (self : ChainNode) (anc : List ChainNode)
    (name : String) (stMode : Nat) (e : Entry)
    (_h : findEntry self.dir.entries name = some e) :
    (createOp self anc name stMode).result = .ok ()
    ∧ findEntry ((createOp self anc name stMode).self).dir.entries name =
        some { mode := stMode, hash := none, materialized := true } := by
  refine ⟨rfl, ?_⟩
  simp [createOp, findEntry_insertEntry_self]

/-- C9 witness: create over the existing directory entry sub replaces
it with a materialized file entry. -/
theorem claim9_witness :
    (createOp rootM [] "sub" 0o100644).result = .ok ()
    ∧ findEntry ((createOp rootM [] "sub" 0o100644).self).dir.entries "sub" =
        some { mode := 0o100644, hash := none, materialized := true } :=
  claim9_create_replaces_existing rootM [] "sub" 0o100644 entSubU (by decide)

/-- C1 counterexample: mkdir of an already present name over an
unmaterialized root returns EEXIST, but only after materializing the
directory and writing to the overlay, so the claimed absence of
materialization side effects on a failing precondition is violated. -/
theorem claim1_counterexample_mkdir :
    rootU.dir.materialized = false
    ∧ (mkdirOp rootU [] "a" 0o040755).result = .error .EEXIST
    ∧ ((mkdirOp rootU [] "a" 0o040755).self).dir.materialized = true
    ∧ (mkdirOp rootU [] "a" 0o040755).events ≠ [] := by decide

/-- C1 amended: unlink and rmdir fail any user precondition, and rename
a missing source, in the read-lock preflight, returning the error with
no state change, no overlay effect and no journal delta; mkdir detects
an existing name only after materializeDirAndParents has run, so a
failing mkdir still returns EEXIST and appends no journal delta but may
have materialization side effects. -/
theorem claim1_amended_preflight_no_side_effects :
    (∀ (self : ChainNode) (anc : List ChainNode) (name : String) (err : Errno),
        unlinkPreflight self.dir name = .error err →
        unlinkOp self anc name =
          { result := .error err, self := self, anc := anc, events := [], journal := [] })
    ∧ (∀ (self : ChainNode) (anc : List ChainNode) (name : String)
          (target? : Option Dir) (err : Errno),
        rmdirPreflight self.dir name target? = .error err →
        rmdirOp self anc name target? =
          { result := .error err, self := self, anc := anc, events := [], journal := [] })
    ∧ (∀ (self : ChainNode) (anc : List ChainNode) (name newName : String)
          (destChild? : Option Dir),
        findEntry self.dir.entries name = none →
        renameOpSame self anc name newName destChild? =
          { result := .error .ENOENT, self := self, anc := anc, events := [], journal := [] })
    ∧ (∀ (self : ChainNode) (anc : List ChainNode) (dest : ChainNode)
          (danc : List ChainNode) (name newName : String) (destChild? : Option Dir),
        findEntry self.dir.entries name = none →
        renameOpCross self anc dest danc name newName destChild? =
          { result := .error .ENOENT, self := self, anc := anc, dest := dest, danc := danc,
            events := [], journal := [] })
    ∧ (∀ (self : ChainNode) (anc : List ChainNode) (name : String) (stMode : Nat)
          (e : Entry),
        findEntry self.dir.entries name = some e →
        (mkdirOp self anc name stMode).result = .error .EEXIST
        ∧ (mkdirOp self anc name stMode).journal = []) := by
  refine ⟨?_, ?_, ?_, ?_, ?_⟩
  · intro self anc name err h
    simp [unlinkOp, h]
  · intro self anc name target? err h
    simp [rmdirOp, h]
  · intro self anc name newName destChild? h
    simp [renameOpSame, h]
  · intro self anc dest danc name newName destChild? h
    simp [renameOpCross, h]
  · intro self anc name stMode e h
    have h2 : findEntry ((materializeDirAndParents self anc).1).dir.entries name = some e := by
      rw [mat_entries]; exact h
    constructor <;> simp [mkdirOp, h2]

/-- C1 witness: unlink of a missing name is a pure error. -/
theorem claim1_witness :
    unlinkOp rootU [] "zz" =
      { result := .error .ENOENT, self := rootU, anc := [], events := [], journal := [] } :=
  claim1_amended_preflight_no_side_effects.1 rootU [] "zz" .ENOENT (by decide)

theorem renameHelperSame_ok_spec (d : Dir) (srcN dstN : String) (srcFull dstFull : RelPath)
    (child : Option Dir) (d3 : Dir) (ev : List Event)
    (hnd : KeysNodup d.entries) (hne : srcN ≠ dstN)
    (h : renameHelperSame d srcN dstN srcFull dstFull child = .ok (d3, ev)) :
    findEntry d3.entries dstN = findEntry d.entries srcN
    ∧ findEntry d3.entries srcN = none := by
  cases hs : findEntry d.entries srcN with
  | none => simp [renameHelperSame, hs] at h
  | some srcEnt =>
    cases hd : findEntry d.entries dstN with
    | some dstEnt =>
      cases hdc : renameDestCheck srcEnt (some dstEnt) child with
      | error e => simp [renameHelperSame, hs, hd, hdc] at h
      | ok u =>
        simp only [renameHelperSame, hs, hd, hdc, Res.ok.injEq, Prod.mk.injEq] at h
        obtain ⟨hd3, _⟩ := h
        subst hd3
        constructor
        · rw [findEntry_eraseEntry_ne _ _ _ (Ne.symm hne),
            findEntry_insertEntry_self]
        · exact findEntry_eraseEntry_self _ _
            (keysNodup_insertEntry _ _ _ hnd)
    | none =>
      cases hdc : renameDestCheck srcEnt none child with
      | error e => simp [renameHelperSame, hs, hd, hdc] at h
      | ok u =>
        simp only [renameHelperSame, hs, hd, hdc,
          findEntry_insertEntry_ne _ _ _ _ hne, Res.ok.injEq, Prod.mk.injEq] at h
        obtain ⟨hd3, _⟩ := h
        subst hd3
        constructor
        · rw [findEntry_eraseEntry_ne _ _ _ (Ne.symm hne),
            findEntry_insertEntry_self]
        · exact findEntry_eraseEntry_self _ _
            (keysNodup_insertEntry _ _ _ (keysNodup_insertEntry _ _ _ hnd))

theorem renameHelperSame_samename_spec (d : Dir) (srcN : String) (srcFull dstFull : RelPath)
    (child : Option Dir) (d3 : Dir) (ev : List Event)
    (hnd : KeysNodup d.entries)
    (h : renameHelperSame d srcN srcN srcFull dstFull child = .ok (d3, ev)) :
    findEntry d3.entries srcN = none := by
  cases hs : findEntry d.entries srcN with
  | none => simp [renameHelperSame, hs] at h
  | some srcEnt =>
    cases hdc : renameDestCheck srcEnt (some srcEnt) child with
    | error e => simp [renameHelperSame, hs, hdc] at h
    | ok u =>
      simp only [renameHelperSame, hs, hdc, Res.ok.injEq, Prod.mk.injEq] at h
      obtain ⟨hd3, _⟩ := h
      subst hd3
      exact findEntry_eraseEntry_self _ _ (keysNodup_insertEntry _ _ _ hnd)

theorem renameHelperSame_file_ok (d : Dir) (srcN : String) (srcFull dstFull : RelPath)
    (child : Option Dir) (e : Entry)
    (hs : findEntry d.entries srcN = some e)
    (hfile : (mode_to_dtype e.mode == dtypeDir) = false) :
    renameHelperSame d srcN srcN srcFull dstFull child =
      .ok ({ d with entries := eraseEntry (insertEntry d.entries srcN e) srcN },
        (if e.materialized then [.contentRename srcFull dstFull] else [])
          ++ [.saveDir srcFull.dropLast
                { d with entries := eraseEntry (insertEntry d.entries srcN e) srcN }]) := by
  have hdc : renameDestCheck e (some e) child = .ok () := by
    simp [renameDestCheck, hfile]
  simp [renameHelperSame, hs, hdc]

theorem renameHelperCross_ok_spec (src dst : Dir) (srcN dstN : String)
    (srcFull dstFull : RelPath) (child : Option Dir)
    (src3 dst3 : Dir) (ev : List Event)
    (hnd : KeysNodup src.entries)
    (h : renameHelperCross src dst srcN dstN srcFull dstFull child = .ok (src3, dst3, ev)) :
    findEntry dst3.entries dstN = findEntry src.entries srcN
    ∧ findEntry src3.entries srcN = none := by
  cases hs : findEntry src.entries srcN with
  | none => simp [renameHelperCross, hs] at h
  | some srcEnt =>
    cases hd : findEntry dst.entries dstN with
    | some dstEnt =>
      cases hdc : renameDestCheck srcEnt (some dstEnt) child with
      | error e => simp [renameHelperCross, hs, hd, hdc] at h
      | ok u =>
        simp only [renameHelperCross, hs, hd, hdc, Res.ok.injEq, Prod.mk.injEq] at h
        obtain ⟨hsrc3, hdst3, _⟩ := h
        subst hsrc3; subst hdst3
        exact ⟨by rw [findEntry_insertEntry_self],
          findEntry_eraseEntry_self _ _ hnd⟩
    | none =>
      cases hdc : renameDestCheck srcEnt none child with
      | error e => simp [renameHelperCross, hs, hd, hdc] at h
      | ok u =>
        simp only [renameHelperCross, hs, hd, hdc, Res.ok.injEq, Prod.mk.injEq] at h
        obtain ⟨hsrc3, hdst3, _⟩ := h
        subst hsrc3; subst hdst3
        exact ⟨by rw [findEntry_insertEntry_self],
          findEntry_eraseEntry_self _ _ hnd⟩

theorem renameOpSame_samename_erases (self : ChainNode) (anc : List ChainNode)
    (name : String) (destChild? : Option Dir)
    (hnd : KeysNodup self.dir.entries)
    (hok : (renameOpSame self anc name name destChild?).result = .ok ()) :
    findEntry ((renameOpSame self anc name name destChild?).self).dir.entries name = none := by
  cases hs : findEntry self.dir.entries name with
  | none => simp [renameOpSame, hs] at hok
  | some e0 =>
    have hnd2 : KeysNodup ((materializeDirAndParents self anc).1).dir.entries := by
      rw [mat_entries]; exact hnd
    cases hr : renameHelperSame ((materializeDirAndParents self anc).1).dir name name
        (self.path ++ [name]) (self.path ++ [name]) destChild? with
    | error e => simp [renameOpSame, hs, hr] at hok
    | ok r =>
      have hspec := renameHelperSame_samename_spec _ _ _ _ _ r.1 r.2 hnd2 hr
      simp only [renameOpSame, hs, hr]
      simpa using hspec

/-- C2 counterexample: a rename whose source and destination are the
same directory and the same name succeeds, yet afterwards the
destination name holds no entry at all, so the destination entry is not
byte-equal to the pre-rename source entry. -/
theorem claim2_counterexample_degenerate_rename :
    (renameOpSame rootM [] "a" "a" none).result = .ok ()
    ∧ findEntry rootM.dir.entries "a" = some entFileM
    ∧ findEntry ((renameOpSame rootM [] "a" "a" none).self).dir.entries "a" = none := by
  decide

/-- C2 amended: for every successful rename whose source and
destination slots differ (same map with distinct names, or distinct
maps), the destination entry afterwards is byte-equal to the pre-rename
source entry and the source name is absent from the source map; in the
degenerate same-map same-name case the moved entry is erased, leaving
the name absent.  The source entry is re-resolved after the destination
insertion, as the iterator may have been invalidated by it. -/
theorem claim2_amended_rename_identity :
    (∀ (self : ChainNode) (anc : List ChainNode) (name newName : String)
        (destChild? : Option Dir),
      KeysNodup self.dir.entries → name ≠ newName →
      (renameOpSame self anc name newName destChild?).result = .ok () →
      findEntry ((renameOpSame self anc name newName destChild?).self).dir.entries newName =
          findEntry self.dir.entries name
      ∧ findEntry ((renameOpSame self anc name newName destChild?).self).dir.entries name =
          none)
    ∧ (∀ (self : ChainNode) (anc : List ChainNode) (dest : ChainNode)
        (danc : List ChainNode) (name newName : String) (destChild? : Option Dir),
      KeysNodup self.dir.entries →
      (renameOpCross self anc dest danc name newName destChild?).result = .ok () →
      findEntry ((renameOpCross self anc dest danc name newName destChild?).dest).dir.entries
          newName = findEntry self.dir.entries name
      ∧ findEntry ((renameOpCross self anc dest danc name newName destChild?).self).dir.entries
          name = none)
    ∧ (∀ (self : ChainNode) (anc : List ChainNode) (name : String) (destChild? : Option Dir),
      KeysNodup self.dir.entries →
      (renameOpSame self anc name name destChild?).result = .ok () →
      findEntry ((renameOpSame self anc name name destChild?).self).dir.entries name = none) := by
  refine ⟨?_, ?_, ?_⟩
  · intro self anc name newName destChild? hnd hne hok
    cases hs : findEntry self.dir.entries name with
    | none => simp [renameOpSame, hs] at hok
    | some e0 =>
      have hnd2 : KeysNodup ((materializeDirAndParents self anc).1).dir.entries := by
        rw [mat_entries]; exact hnd
      cases hr : renameHelperSame ((materializeDirAndParents self anc).1).dir name newName
          (self.path ++ [name]) (self.path ++ [newName]) destChild? with
      | error e => simp [renameOpSame, hs, hr] at hok
      | ok r =>
        have hspec := renameHelperSame_ok_spec _ _ _ _ _ _ r.1 r.2 hnd2 hne hr
        rw [mat_entries, hs] at hspec
        simp only [renameOpSame, hs, hr]
        exact ⟨by simpa using hspec.1, by simpa using hspec.2⟩
  · intro self anc dest danc name newName destChild? hnd hok
    cases hs : findEntry self.dir.entries name with
    | none => simp [renameOpCross, hs] at hok
    | some e0 =>
      have hnd2 : KeysNodup ((materializeDirAndParents self anc).1).dir.entries := by
        rw [mat_entries]; exact hnd
      cases hr : renameHelperCross ((materializeDirAndParents self anc).1).dir
          ((materializeDirAndParents dest danc).1).dir name newName
          (self.path ++ [name]) (dest.path ++ [newName]) destChild? with
      | error e => simp [renameOpCross, hs, hr] at hok
      | ok r =>
        have hspec := renameHelperCross_ok_spec _ _ _ _ _ _ _ r.1 r.2.1 r.2.2 hnd2 hr
        rw [mat_entries, hs] at hspec
        simp only [renameOpCross, hs, hr]
        exact ⟨by simpa using hspec.1, by simpa using hspec.2⟩
  · intro self anc name destChild? hnd hok
    exact renameOpSame_samename_erases self anc name destChild? hnd hok

/-- C2 witness: renaming a to b inside one directory moves the entry
byte-for-byte and clears the source name. -/
theorem claim2_witness :
    findEntry ((renameOpSame rootM [] "a" "b" none).self).dir.entries "b" =
        findEntry rootM.dir.entries "a"
    ∧ findEntry ((renameOpSame rootM [] "a" "b" none).self).dir.entries "a" = none :=
  claim2_amended_rename_identity.1 rootM [] "a" "b" none (by decide) (by decide) (by decide)

/-- C3 counterexample: with a non-empty directory entry sub, the
self-rename rename(sub, d, sub) does not erase the entry: it fails
ENOTEMPTY in the destination checks and the entry is still present, so
the claim does not hold for every present name. -/
theorem claim3_counterexample_nonempty_dir :
    (renameOpSame rootM [] "sub" "sub" (some subDirU)).result = .error .ENOTEMPTY
    ∧ findEntry ((renameOpSame rootM [] "sub" "sub" (some subDirU)).self).dir.entries "sub" =
        some entSubU := by decide

/-- C3 amended: whenever the degenerate self-rename rename(n, d, n)
succeeds, and in particular whenever the entry under n is not a
directory, the destination insertion resolves to the source slot, the
moved-from entry is erased, and n is absent from the entries afterwards;
when n is a non-empty directory the call instead fails ENOTEMPTY and
the entry remains. -/
theorem claim3_amended_self_rename_erases (self : ChainNode) (anc : List ChainNode)
    (n : String) (destChild? : Option Dir) (hnd : KeysNodup self.dir.entries) :
    ((renameOpSame self anc n n destChild?).result = .ok () →
        findEntry ((renameOpSame self anc n n destChild?).self).dir.entries n = none)
    ∧ (∀ e : Entry, findEntry self.dir.entries n = some e →
        (mode_to_dtype e.mode == dtypeDir) = false →
        (renameOpSame self anc n n destChild?).result = .ok ()
        ∧ findEntry ((renameOpSame self anc n n destChild?).self).dir.entries n = none) := by
  constructor
  · intro hok
    exact renameOpSame_samename_erases self anc n destChild? hnd hok
  · intro e hs hfile
    have hs2 : findEntry ((materializeDirAndParents self anc).1).dir.entries n = some e := by
      rw [mat_entries]; exact hs
    have hr := renameHelperSame_file_ok ((materializeDirAndParents self anc).1).dir n
      (self.path ++ [n]) (self.path ++ [n]) destChild? e hs2 hfile
    have hnd2 : KeysNodup ((materializeDirAndParents self anc).1).dir.entries := by
      rw [mat_entries]; exact hnd
    constructor
    · simp [renameOpSame, hs, hr]
    · simp only [renameOpSame, hs, hr]
      simpa using findEntry_eraseEntry_self _ n (keysNodup_insertEntry _ n e hnd2)

/-- C3 witness: the self-rename of the plain file a succeeds and leaves
a absent. -/
theorem claim3_witness :
    (renameOpSame rootM [] "a" "a" none).result = .ok ()
    ∧ findEntry ((renameOpSame rootM [] "a" "a" none).self).dir.entries "a" = none :=
  (claim3_amended_self_rename_erases rootM [] "a" none (by decide)).2 entFileM
    (by decide) (by decide)

/-- C5: each modelled mutating operation appends exactly one journal
delta when it succeeds, listing the affected path (or both paths for
rename), and appends none when it fails with any error. -/
theorem claim5_journal_coverage :
    (∀ (self : ChainNode) (anc : List ChainNode) (name : String) (stMode : Nat),
        (createOp self anc name stMode).result = .ok ()
        ∧ (createOp self anc name stMode).journal = [[self.path ++ [name]]])
    ∧ (∀ (self : ChainNode) (anc : List ChainNode) (name : String) (stMode : Nat),
        ((mkdirOp self anc name stMode).result = .ok () →
          (mkdirOp self anc name stMode).journal = [[self.path ++ [name]]])
        ∧ (∀ err : Errno, (mkdirOp self anc name stMode).result = .error err →
          (mkdirOp self anc name stMode).journal = []))
    ∧ (∀ (self : ChainNode) (anc : List ChainNode) (name : String),
        ((unlinkOp self anc name).result = .ok () →
          (unlinkOp self anc name).journal = [[self.path ++ [name]]])
        ∧ (∀ err : Errno, (unlinkOp self anc name).result = .error err →
          (unlinkOp self anc name).journal = []))
    ∧ (∀ (self : ChainNode) (anc : List ChainNode) (name : String) (target? : Option Dir),
        ((rmdirOp self anc name target?).result = .ok () →
          (rmdirOp self anc name target?).journal = [[self.path ++ [name]]])
        ∧ (∀ err : Errno, (rmdirOp self anc name target?).result = .error err →
          (rmdirOp self anc name target?).journal = []))
    ∧ (∀ (self : ChainNode) (anc : List ChainNode) (name newName : String)
          (destChild? : Option Dir),
        ((renameOpSame self anc name newName destChild?).result = .ok () →
          (renameOpSame self anc name newName destChild?).journal =
            [[self.path ++ [name], self.path ++ [newName]]])
        ∧ (∀ err : Errno,
          (renameOpSame self anc name newName destChild?).result = .error err →
          (renameOpSame self anc name newName destChild?).journal = []))
    ∧ (∀ (self : ChainNode) (anc : List ChainNode) (dest : ChainNode)
          (danc : List ChainNode) (name newName : String) (destChild? : Option Dir),
        ((renameOpCross self anc dest danc name newName destChild?).result = .ok () →
          (renameOpCross self anc dest danc name newName destChild?).journal =
            [[self.path ++ [name], dest.path ++ [newName]]])
        ∧ (∀ err : Errno,
          (renameOpCross self anc dest danc name newName destChild?).result = .error err →
          (renameOpCross self anc dest danc name newName destChild?).journal = [])) := by
  refine ⟨?_, ?_, ?_, ?_, ?_, ?_⟩
  · intro self anc name stMode
    exact ⟨rfl, rfl⟩
  · intro self anc name stMode
    cases hf : findEntry ((materializeDirAndParents self anc).1).dir.entries name with
    | some e => constructor <;> simp [mkdirOp, hf]
    | none => constructor <;> simp [mkdirOp, hf]
  · intro self anc name
    cases hp : unlinkPreflight self.dir name with
    | error err => constructor <;> simp [unlinkOp, hp]
    | ok u =>
      cases hf : findEntry ((materializeDirAndParents self anc).1).dir.entries name with
      | none => constructor <;> simp [unlinkOp, hp, hf]
      | some e =>
        by_cases hd : S_ISDIR e.mode
        · constructor <;> simp [unlinkOp, hp, hf, hd]
        · constructor <;> simp [unlinkOp, hp, hf, hd]
  · intro self anc name target?
    cases hp : rmdirPreflight self.dir name target? with
    | error err => constructor <;> simp [rmdirOp, hp]
    | ok u =>
      cases hc : (rmdirCommit ((materializeDirAndParents self anc).1) name target?).1 with
      | error err => constructor <;> simp [rmdirOp, hp, hc]
      | ok u2 => constructor <;> simp [rmdirOp, hp, hc]
  · intro self anc name newName destChild?
    cases hs : findEntry self.dir.entries name with
    | none => constructor <;> simp [renameOpSame, hs]
    | some e0 =>
      cases hr : renameHelperSame ((materializeDirAndParents self anc).1).dir name newName
          (self.path ++ [name]) (self.path ++ [newName]) destChild? with
      | error e => constructor <;> simp [renameOpSame, hs, hr]
      | ok r => constructor <;> simp [renameOpSame, hs, hr]
  · intro self anc dest danc name newName destChild?
    cases hs : findEntry self.dir.entries name with
    | none => constructor <;> simp [renameOpCross, hs]
    | some e0 =>
      cases hr : renameHelperCross ((materializeDirAndParents self anc).1).dir
          ((materializeDirAndParents dest danc).1).dir name newName
          (self.path ++ [name]) (dest.path ++ [newName]) destChild? with
      | error e => constructor <;> simp [renameOpCross, hs, hr]
      | ok r => constructor <;> simp [renameOpCross, hs, hr]

/-- C5 witness: a successful mkdir appends exactly its one delta. -/
theorem claim5_witness :
    (mkdirOp rootM [] "new" 0o040755).journal = [[rootM.path ++ ["new"]]] :=
  (claim5_journal_coverage.2.1 rootM [] "new" 0o040755).1 (by decide)

/-- C6: rmdir fails ENOTEMPTY unless the entries of the target
directory are empty; the emptiness check of the read-lock preflight is
repeated by the write-lock commit, which fails ENOTEMPTY with the state
untouched and no overlay effect before any entry is erased or overlay
record removed. -/
theorem claim6_rmdir_empty_recheck :
    (∀ (s1 : ChainNode) (name : String) (t : Dir) (e : Entry),
        findEntry s1.dir.entries name = some e → S_ISDIR e.mode = true →
        t.entries.isEmpty = false →
        rmdirCommit s1 name (some t) = (.error .ENOTEMPTY, s1, []))
    ∧ (∀ (s1 : ChainNode) (name : String) (t : Dir),
        t.entries.isEmpty = true →
        (rmdirCommit s1 name (some t)).1 ≠ .error .ENOTEMPTY)
    ∧ (∀ (d : Dir) (name : String) (t : Dir) (e : Entry),
        findEntry d.entries name = some e → S_ISDIR e.mode = true →
        t.entries.isEmpty = false →
        rmdirPreflight d name (some t) = .error .ENOTEMPTY)
    ∧ (∀ (self : ChainNode) (anc : List ChainNode) (name : String) (t : Dir) (e : Entry),
        findEntry self.dir.entries name = some e → S_ISDIR e.mode = true →
        t.entries.isEmpty = false →
        (rmdirOp self anc name (some t)).result = .error .ENOTEMPTY
        ∧ (rmdirOp self anc name (some t)).self = self
        ∧ (rmdirOp self anc name (some t)).events = []
        ∧ (rmdirOp self anc name (some t)).journal = []) := by
  refine ⟨?_, ?_, ?_, ?_⟩
  · intro s1 name t e hf hd ht
    simp [rmdirCommit, hf, hd, ht]
  · intro s1 name t ht
    cases hf : findEntry s1.dir.entries name with
    | none => simp [rmdirCommit, hf]
    | some e =>
      by_cases hd : S_ISDIR e.mode
      · simp [rmdirCommit, hf, hd, ht]
      · simp [rmdirCommit, hf, hd]
  · intro d name t e hf hd ht
    simp [rmdirPreflight, hf, hd, ht]
  · intro self anc name t e hf hd ht
    have hp : rmdirPreflight self.dir name (some t) = .error .ENOTEMPTY := by
      simp [rmdirPreflight, hf, hd, ht]
    refine ⟨?_, ?_, ?_, ?_⟩ <;> simp [rmdirOp, hp]

/-- C6 witness: the commit-phase re-check rejects a non-empty target
with no state change and no overlay effect. -/
theorem claim6_witness :
    rmdirCommit rootM "sub" (some subDirU) = (.error .ENOTEMPTY, rootM, []) :=
  claim6_rmdir_empty_recheck.1 rootM "sub" subDirU entSubU (by decide) (by decide) (by decide)

/-- C7: unlink fails ENOENT when the name is absent and EISDIR when the
entry is a directory; on success it unlinks the overlay content file
exactly when the materialized flag of the entry is true, always erases
the entry from the entries, and saves the updated parent Dir to the
overlay. -/
theorem claim7_unlink_contract (self : ChainNode) (anc : List ChainNode) (name : String) :
    (findEntry self.dir.entries name = none →
        (unlinkOp self anc name).result = .error .ENOENT)
    ∧ (∀ e : Entry, findEntry self.dir.entries name = some e → S_ISDIR e.mode = true →
        (unlinkOp self anc name).result = .error .EISDIR)
    ∧ (∀ e : Entry, KeysNodup self.dir.entries →
        findEntry self.dir.entries name = some e → S_ISDIR e.mode = false →
        (unlinkOp self anc name).result = .ok ()
        ∧ ((Event.contentUnlink (self.path ++ [name]) ∈ (unlinkOp self anc name).events)
            ↔ e.materialized = true)
        ∧ findEntry ((unlinkOp self anc name).self).dir.entries name = none
        ∧ Event.saveDir self.path ((unlinkOp self anc name).self).dir
            ∈ (unlinkOp self anc name).events) := by
  refine ⟨?_, ?_, ?_⟩
  · intro hf
    have hp : unlinkPreflight self.dir name = .error .ENOENT := by
      simp [unlinkPreflight, hf]
    simp [unlinkOp, hp]
  · intro e hf hd
    have hp : unlinkPreflight self.dir name = .error .EISDIR := by
      simp [unlinkPreflight, hf, hd]
    simp [unlinkOp, hp]
  · intro e hnd hf hd
    have hp : unlinkPreflight self.dir name = .ok () := by
      simp [unlinkPreflight, hf, hd]
    have hf2 : findEntry ((materializeDirAndParents self anc).1).dir.entries name = some e := by
      rw [mat_entries]; exact hf
    refine ⟨?_, ?_, ?_, ?_⟩
    · simp [unlinkOp, hp, hf2, hd]
    · constructor
      · intro hmem
        by_contra hm0
        have hm : e.materialized = false := by
          cases hme : e.materialized
          · rfl
          · exact absurd hme hm0
        simp only [unlinkOp, hp, hf2, hd, hm, Bool.false_eq_true, if_false,
          List.append_nil, List.nil_append] at hmem
        rcases List.mem_append.1 hmem with h1 | h1
        · rcases mat_events_shape anc self _ h1 with ⟨p, hp2⟩ | ⟨p, d2, hp2⟩ <;>
            simp at hp2
        · simp at h1
      · intro hm
        simp only [unlinkOp, hp, hf2, hd, hm, if_true]
        simp [List.mem_append]
    · simp only [unlinkOp, hp, hf2, hd]
      have hnd2 : KeysNodup ((materializeDirAndParents self anc).1).dir.entries := by
        rw [mat_entries]; exact hnd
      simpa using findEntry_eraseEntry_self _ name hnd2
    · simp only [unlinkOp, hp, hf2, hd]
      rw [mat_path]
      simp [List.mem_append]

/-- C7 witness: unlinking the unmaterialized file a succeeds, never
touches its overlay content path, erases the entry and saves the
Dir. -/
theorem claim7_witness :
    (unlinkOp rootU [] "a").result = .ok ()
    ∧ ((Event.contentUnlink (rootU.path ++ ["a"]) ∈ (unlinkOp rootU [] "a").events)
        ↔ entFileU.materialized = true)
    ∧ findEntry ((unlinkOp rootU [] "a").self).dir.entries "a" = none
    ∧ Event.saveDir rootU.path ((unlinkOp rootU [] "a").self).dir
        ∈ (unlinkOp rootU [] "a").events :=
  (claim7_unlink_contract rootU [] "a").2.2 entFileU (by decide) (by decide) (by decide)

theorem forall₂_monoNode_refl (l : List ChainNode) : List.Forall₂ MonoNode l l :=
  List.forall₂_same.2 fun x _ => monoNode_refl x

theorem rmdirCommit_materialized (s1 : ChainNode) (name : String) (target? : Option Dir) :
    ((rmdirCommit s1 name target?).2.1).dir.materialized = s1.dir.materialized := by
  cases hf : findEntry s1.dir.entries name with
  | none => simp [rmdirCommit, hf]
  | some e =>
    by_cases hd : S_ISDIR e.mode
    · cases target? with
      | none => simp [rmdirCommit, hf, hd]
      | some t =>
        by_cases ht : t.entries.isEmpty <;> simp [rmdirCommit, hf, hd, ht]
    · simp [rmdirCommit, hf, hd]

theorem renameHelperSame_materialized (d : Dir) (srcN dstN : String)
    (srcFull dstFull : RelPath) (child : Option Dir) (d3 : Dir) (ev : List Event)
    (h : renameHelperSame d srcN dstN srcFull dstFull child = .ok (d3, ev)) :
    d3.materialized = d.materialized := by
  cases hs : findEntry d.entries srcN with
  | none => simp [renameHelperSame, hs] at h
  | some srcEnt =>
    cases hdc : renameDestCheck srcEnt (findEntry d.entries dstN) child with
    | error e => simp [renameHelperSame, hs, hdc] at h
    | ok u =>
      cases hd : findEntry d.entries dstN with
      | some dstEnt =>
        rw [hd] at hdc
        simp only [renameHelperSame, hs, hd, hdc, Res.ok.injEq, Prod.mk.injEq] at h
        obtain ⟨hd3, _⟩ := h
        subst hd3
        rfl
      | none =>
        rw [hd] at hdc
        cases hre : findEntry (insertEntry d.entries dstN
            { mode := 0, hash := none, materialized := false }) srcN with
        | none => simp [renameHelperSame, hs, hd, hdc, hre] at h
        | some moved =>
          simp only [renameHelperSame, hs, hd, hdc, hre, Res.ok.injEq, Prod.mk.injEq] at h
          obtain ⟨hd3, _⟩ := h
          subst hd3
          rfl

theorem renameHelperCross_materialized (src dst : Dir) (srcN dstN : String)
    (srcFull dstFull : RelPath) (child : Option Dir)
    (src3 dst3 : Dir) (ev : List Event)
    (h : renameHelperCross src dst srcN dstN srcFull dstFull child = .ok (src3, dst3, ev)) :
    src3.materialized = src.materialized ∧ dst3.materialized = dst.materialized := by
  cases hs : findEntry src.entries srcN with
  | none => simp [renameHelperCross, hs] at h
  | some srcEnt =>
    cases hdc : renameDestCheck srcEnt (findEntry dst.entries dstN) child with
    | error e => simp [renameHelperCross, hs, hdc] at h
    | ok u =>
      cases hd : findEntry dst.entries dstN with
      | some dstEnt =>
        rw [hd] at hdc
        simp only [renameHelperCross, hs, hd, hdc, Res.ok.injEq, Prod.mk.injEq] at h
        obtain ⟨hsrc3, hdst3, _⟩ := h
        subst hsrc3; subst hdst3
        exact ⟨rfl, rfl⟩
      | none =>
        rw [hd] at hdc
        simp only [renameHelperCross, hs, hd, hdc, Res.ok.injEq, Prod.mk.injEq] at h
        obtain ⟨hsrc3, hdst3, _⟩ := h
        subst hsrc3; subst hdst3
        exact ⟨rfl, rfl⟩

/-- C4: materialization is monotone and idempotent.  Calling
materializeDirAndParents on an already-materialized directory returns
with no state change and no overlay write; after any call the self flag
is true and every ancestor flag is monotone; and every modelled
operation leaves the materialized flag of self, of the ancestors, and
for cross-directory rename of the destination chain, monotone: once
true it is never reset to false. -/
theorem claim4_materialization_monotone_idempotent :
    (∀ (self : ChainNode) (anc : List ChainNode), self.dir.materialized = true →
        materializeDirAndParents self anc = (self, anc, []))
    ∧ (∀ (self : ChainNode) (anc : List ChainNode),
        ((materializeDirAndParents self anc).1).dir.materialized = true
        ∧ List.Forall₂ MonoNode anc ((materializeDirAndParents self anc).2.1))
    ∧ (∀ (self : ChainNode) (anc : List ChainNode) (name : String) (stMode : Nat),
        MonoNode self (createOp self anc name stMode).self
        ∧ List.Forall₂ MonoNode anc (createOp self anc name stMode).anc)
    ∧ (∀ (self : ChainNode) (anc : List ChainNode) (name : String) (stMode : Nat),
        MonoNode self (mkdirOp self anc name stMode).self
        ∧ List.Forall₂ MonoNode anc (mkdirOp self anc name stMode).anc)
    ∧ (∀ (self : ChainNode) (anc : List ChainNode) (name : String),
        MonoNode self (unlinkOp self anc name).self
        ∧ List.Forall₂ MonoNode anc (unlinkOp self anc name).anc)
    ∧ (∀ (self : ChainNode) (anc : List ChainNode) (name : String) (target? : Option Dir),
        MonoNode self (rmdirOp self anc name target?).self
        ∧ List.Forall₂ MonoNode anc (rmdirOp self anc name target?).anc)
    ∧ (∀ (self : ChainNode) (anc : List ChainNode) (name newName : String)
          (destChild? : Option Dir),
        MonoNode self (renameOpSame self anc name newName destChild?).self
        ∧ List.Forall₂ MonoNode anc (renameOpSame self anc name newName destChild?).anc)
    ∧ (∀ (self : ChainNode) (anc : List ChainNode) (dest : ChainNode)
          (danc : List ChainNode) (name newName : String) (destChild? : Option Dir),
        MonoNode self (renameOpCross self anc dest danc name newName destChild?).self
        ∧ List.Forall₂ MonoNode anc (renameOpCross self anc dest danc name newName destChild?).anc
        ∧ MonoNode dest (renameOpCross self anc dest danc name newName destChild?).dest
        ∧ List.Forall₂ MonoNode danc
            (renameOpCross self anc dest danc name newName destChild?).danc) := by
  refine ⟨mat_of_materialized, ?_, ?_, ?_, ?_, ?_, ?_, ?_⟩
  · intro self anc
    exact ⟨mat_materialized self anc, mat_anc_mono anc self⟩
  · intro self anc name stMode
    constructor
    · intro _
      simpa [createOp] using mat_materialized self anc
    · simpa [createOp] using mat_anc_mono anc self
  · intro self anc name stMode
    cases hf : findEntry ((materializeDirAndParents self anc).1).dir.entries name with
    | some e =>
      constructor
      · intro _
        simpa [mkdirOp, hf] using mat_materialized self anc
      · simpa [mkdirOp, hf] using mat_anc_mono anc self
    | none =>
      constructor
      · intro _
        simpa [mkdirOp, hf] using mat_materialized self anc
      · simpa [mkdirOp, hf] using mat_anc_mono anc self
  · intro self anc name
    cases hp : unlinkPreflight self.dir name with
    | error err =>
      constructor
      · intro h2
        simpa [unlinkOp, hp] using h2
      · simpa [unlinkOp, hp] using forall₂_monoNode_refl anc
    | ok u =>
      cases hf : findEntry ((materializeDirAndParents self anc).1).dir.entries name with
      | none =>
        constructor
        · intro _
          simpa [unlinkOp, hp, hf] using mat_materialized self anc
        · simpa [unlinkOp, hp, hf] using mat_anc_mono anc self
      | some e =>
        by_cases hd : S_ISDIR e.mode
        · constructor
          · intro _
            simpa [unlinkOp, hp, hf, hd] using mat_materialized self anc
          · simpa [unlinkOp, hp, hf, hd] using mat_anc_mono anc self
        · constructor
          · intro _
            simpa [unlinkOp, hp, hf, hd] using mat_materialized self anc
          · simpa [unlinkOp, hp, hf, hd] using mat_anc_mono anc self
  · intro self anc name target?
    cases hp : rmdirPreflight self.dir name target? with
    | error err =>
      constructor
      · intro h2
        simpa [rmdirOp, hp] using h2
      · simpa [rmdirOp, hp] using forall₂_monoNode_refl anc
    | ok u =>
      have hcm :
          ((rmdirCommit ((materializeDirAndParents self anc).1) name target?).2.1).dir.materialized
            = true := by
        rw [rmdirCommit_materialized]
        exact mat_materialized self anc
      cases hc : (rmdirCommit ((materializeDirAndParents self anc).1) name target?).1 with
      | error err =>
        constructor
        · intro _
          simpa [rmdirOp, hp, hc] using hcm
        · simpa [rmdirOp, hp, hc] using mat_anc_mono anc self
      | ok u2 =>
        constructor
        · intro _
          simpa [rmdirOp, hp, hc] using hcm
        · simpa [rmdirOp, hp, hc] using mat_anc_mono anc self
  · intro self anc name newName destChild?
    cases hs : findEntry self.dir.entries name with
    | none =>
      constructor
      · intro h2
        simpa [renameOpSame, hs] using h2
      · simpa [renameOpSame, hs] using forall₂_monoNode_refl anc
    | some e0 =>
      cases hr : renameHelperSame ((materializeDirAndParents self anc).1).dir name newName
          (self.path ++ [name]) (self.path ++ [newName]) destChild? with
      | error e =>
        constructor
        · intro _
          simpa [renameOpSame, hs, hr] using mat_materialized self anc
        · simpa [renameOpSame, hs, hr] using mat_anc_mono anc self
      | ok r =>
        have hm3 := renameHelperSame_materialized _ _ _ _ _ _ r.1 r.2 hr
        constructor
        · intro _
          have : r.1.materialized = true := by
            rw [hm3]; exact mat_materialized self anc
          simpa [renameOpSame, hs, hr] using this
        · simpa [renameOpSame, hs, hr] using mat_anc_mono anc self
  · intro self anc dest danc name newName destChild?
    cases hs : findEntry self.dir.entries name with
    | none =>
      refine ⟨?_, ?_, ?_, ?_⟩
      · intro h2
        simpa [renameOpCross, hs] using h2
      · simpa [renameOpCross, hs] using forall₂_monoNode_refl anc
      · intro h2
        simpa [renameOpCross, hs] using h2
      · simpa [renameOpCross, hs] using forall₂_monoNode_refl danc
    | some e0 =>
      cases hr : renameHelperCross ((materializeDirAndParents self anc).1).dir
          ((materializeDirAndParents dest danc).1).dir name newName
          (self.path ++ [name]) (dest.path ++ [newName]) destChild? with
      | error e =>
        refine ⟨?_, ?_, ?_, ?_⟩
        · intro _
          simpa [renameOpCross, hs, hr] using mat_materialized self anc
        · simpa [renameOpCross, hs, hr] using mat_anc_mono anc self
        · intro _
          simpa [renameOpCross, hs, hr] using mat_materialized dest danc
        · simpa [renameOpCross, hs, hr] using mat_anc_mono danc dest
      | ok r =>
        have hm3 := renameHelperCross_materialized _ _ _ _ _ _ _ r.1 r.2.1 r.2.2 hr
        refine ⟨?_, ?_, ?_, ?_⟩
        · intro _
          have : r.1.materialized = true := by
            rw [hm3.1]; exact mat_materialized self anc
          simpa [renameOpCross, hs, hr] using this
        · simpa [renameOpCross, hs, hr] using mat_anc_mono anc self
        · intro _
          have : r.2.1.materialized = true := by
            rw [hm3.2]; exact mat_materialized dest danc
          simpa [renameOpCross, hs, hr] using this
        · simpa [renameOpCross, hs, hr] using mat_anc_mono danc dest

/-- C4 witness: materializing an already-materialized root is the
identity with no overlay write. -/
theorem claim4_witness :
    materializeDirAndParents rootM [] = (rootM, [], []) :=
  claim4_materialization_monotone_idempotent.1 rootM [] (by decide)

end Eden
